import Mathlib

/-
Verification of the tri-state checkbox tree, lazy scanner, and conversion
worker of the ConvertCode2PDF application (src/app.py), as a shallow
embedding in Lean.

The Treeview state is modelled as a forest of nodes.  Each real item of the
Treeview carries a text check mark, one of three states, stored here as
CheckState; a directory that has not been expanded yet carries one dummy
child (text Loading..., tag dummy), modelled by the dummy constructor.
A Treeview item id is modelled as the list of child indices from the root
list down to the item.
-/

/-- The three check-mark states of a Treeview item.  In app.py they are the
text markers for unchecked, checked and the mixed (partially checked) state,
with matching tags.  The mixed constructor models the tag named after the
partially checked state. -/
inductive CheckState where
  | unchecked
  | checked
  | mixed
deriving DecidableEq, Repr

/-- A Treeview item: either the dummy Loading... placeholder child of an
unexpanded directory (tag dummy, empty value) or a real item with its
filesystem path, check-mark state and ordered children. -/
inductive TNode where
  | dummy
  | node (path : String) (state : CheckState) (children : List TNode)
deriving Repr

/-- True for the dummy placeholder item. -/
def TNode.isDummy : TNode → Bool
  | .dummy => true
  | .node _ _ _ => false

/-- Counting test of update_parent_check (app.py lines 316-319): an item
whose text starts with the checked mark OR the mixed mark increments the
checked counter.  A dummy item matches neither mark. -/
def countsChecked : TNode → Bool
  | .node _ .checked _ => true
  | .node _ .mixed _ => true
  | _ => false

/-- Counting test of update_parent_check (app.py lines 320-321): an item
whose text starts with the unchecked mark increments the unchecked
counter. -/
def countsUnchecked : TNode → Bool
  | .node _ .unchecked _ => true
  | _ => false

/-- The state update_parent_check assigns to a parent from its list of
children (app.py lines 313-331): checked when every child counts as
checked, unchecked when every child counts as unchecked, otherwise the
mixed state. -/
def parent_check_state (kids : List TNode) : CheckState :=
  if kids.countP countsChecked = kids.length then .checked
  else if kids.countP countsUnchecked = kids.length then .unchecked
  else .mixed

/-- The new tag chosen by on_treeview_click (app.py lines 257-268) from the
current text of the clicked item: unchecked and mixed both become checked,
checked becomes unchecked.  A dummy item matches no branch and the handler
returns without effect; that case is handled in clickNode. -/
def toggleTag : CheckState → CheckState
  | .unchecked => .checked
  | .checked => .unchecked
  | .mixed => .checked

mutual
/-- Writing the new tag on an item and running update_children below it
(app.py lines 271-274 followed by 283-303): the item itself takes the new
state and every descendant with a check-mark text is set to the same state
recursively.  The dummy child has no check-mark text and is skipped. -/
def set_and_cascade (b : CheckState) : TNode → TNode
  | .dummy => .dummy
  | .node p _ kids => .node p b (update_children b kids)
/-- update_children (app.py lines 283-303) over a list of children. -/
def update_children (b : CheckState) : List TNode → List TNode
  | [] => []
  | c :: cs => set_and_cascade b c :: update_children b cs
end

/-- The effect of on_treeview_click (app.py lines 237-281) on the subtree
rooted at a node, for a click at the item reached by the given index path
inside that subtree.  An empty path means the node itself was clicked: its
tag is toggled and update_children cascades the new binary state.  A
nonempty path means the click happened strictly below: the child subtree is
updated first, then update_parent_check (lines 305-342) recomputes this
node from its updated children.  Returns none when the path leads nowhere
or to the dummy item, in which case the handler returns without mutating
anything. -/
def clickNode : List Nat → TNode → Option TNode
  | _, .dummy => none
  | [], .node p s kids => some (set_and_cascade (toggleTag s) (.node p s kids))
  | i :: rest, .node p _ kids =>
    match kids.get? i with
    | none => none
    | some c =>
      match clickNode rest c with
      | none => none
      | some c' =>
        let kids' := kids.set i c'
        some (.node p (parent_check_state kids') kids')

/-- on_treeview_click on the whole forest: the chain of update_parent_check
calls stops at the top level, because tree.parent of a top level item is
the empty id (app.py lines 309-311). -/
def on_treeview_click (roots : List TNode) (p : List Nat) : List TNode :=
  match p with
  | [] => roots
  | i :: rest =>
    match roots.get? i with
    | none => roots
    | some r =>
      match clickNode rest r with
      | none => roots
      | some r' => roots.set i r'

/-- A sequence of checkbox clicks, applied left to right. -/
def clickSeq (roots : List TNode) (ps : List (List Nat)) : List TNode :=
  ps.foldl on_treeview_click roots

/-- Item lookup by index path inside one subtree. -/
def getNodeN : List Nat → TNode → Option TNode
  | [], n => some n
  | _ :: _, .dummy => none
  | i :: rest, .node _ _ kids =>
    match kids.get? i with
    | none => none
    | some c => getNodeN rest c

/-- Item lookup by index path in the forest. -/
def getNodeF (roots : List TNode) : List Nat → Option TNode
  | [] => none
  | i :: rest =>
    match roots.get? i with
    | none => none
    | some r => getNodeN rest r

/-- Overwriting the state of the single item at the given path inside a
subtree, leaving everything else unchanged. -/
def setStateN (b : CheckState) : List Nat → TNode → TNode
  | _, .dummy => .dummy
  | [], .node q _ kids => .node q b kids
  | i :: rest, .node q s kids =>
    match kids.get? i with
    | none => .node q s kids
    | some c => .node q s (kids.set i (setStateN b rest c))

/-- Overwriting the state of the single item at the given path in the
forest. -/
def setStateF (b : CheckState) (roots : List TNode) : List Nat → List TNode
  | [] => roots
  | i :: rest =>
    match roots.get? i with
    | none => roots
    | some r => roots.set i (setStateN b rest r)

mutual
/-- True when every real (non dummy) item of the subtree, the root item
included, carries state b. -/
def allStateN (b : CheckState) : TNode → Bool
  | .dummy => true
  | .node _ s kids => decide (s = b) && allStateL b kids
/-- allStateN over a list of subtrees. -/
def allStateL (b : CheckState) : List TNode → Bool
  | [] => true
  | c :: cs => allStateN b c && allStateL b cs
end

/-- Well-formedness of a sibling list as app.py produces it: the dummy
placeholder only ever appears as the sole child of an unexpanded directory
(populate_treeview line 210, process_tree_queue line 528), so no sibling
list mixes dummy and real items. -/
def noMixedKids (kids : List TNode) : Bool :=
  kids.all TNode.isDummy || kids.all (fun c => !c.isDummy)

mutual
/-- Well-formed subtree: no sibling list mixes dummy and real items. -/
def wfN : TNode → Bool
  | .dummy => true
  | .node _ _ kids => noMixedKids kids && wfL kids
/-- wfN over a list of subtrees. -/
def wfL : List TNode → Bool
  | [] => true
  | c :: cs => wfN c && wfL cs
end

mutual
/-- The directory-state invariant that the code actually maintains: every
item that has at least one loaded (real) child carries exactly the state
that parent_check_state computes from its children, in which a child in
the mixed state counts as checked. -/
def invN : TNode → Bool
  | .dummy => true
  | .node _ s kids =>
    (if kids.any (fun c => !c.isDummy) then decide (s = parent_check_state kids) else true)
      && invL kids
/-- invN over a list of subtrees. -/
def invL : List TNode → Bool
  | [] => true
  | c :: cs => invN c && invL cs
end

/-- The strict counting test demanded by claim C1: only a child whose state
is checked counts as checked. -/
def strictCountsChecked : TNode → Bool
  | .node _ .checked _ => true
  | _ => false

/-- Modelled from the spec, for comparison with the code: the parent state
rule as claim C1 states it.  A parent is checked only when every child is
checked, unchecked only when every child is unchecked, otherwise mixed. -/
def specParentState (kids : List TNode) : CheckState :=
  if kids.countP strictCountsChecked = kids.length then .checked
  else if kids.countP countsUnchecked = kids.length then .unchecked
  else .mixed

mutual
/-- The invariant exactly as claim C1 states it: every item with at least
one loaded child carries the state specParentState computes from its
children (mixed children do not count as checked). -/
def strictInvN : TNode → Bool
  | .dummy => true
  | .node _ s kids =>
    (if kids.any (fun c => !c.isDummy) then decide (s = specParentState kids) else true)
      && strictInvL kids
/-- strictInvN over a list of subtrees. -/
def strictInvL : List TNode → Bool
  | [] => true
  | c :: cs => strictInvN c && strictInvL cs
end

/-- Kind of a filesystem path, as the os.path predicates see it. -/
inductive FsKind where
  | file
  | dir
  | missing
deriving DecidableEq, Repr

/-- Suffix test on strings, modelling the Python str.endswith used at
app.py line 358. -/
def endsWithStr (p suf : String) : Bool :=
  suf.data.isSuffixOf p.data

mutual
/-- get_checked_items (app.py lines 344-366) over one subtree: depth-first,
an item is emitted when its tag is checked, os.path.isfile holds of its
path, and the path does not end in .pdf; recursion always descends into
the children, whatever the state of the item itself.  The dummy item has
the dummy tag and the empty value, so it is never emitted. -/
def checkedItemsN (fs : String → FsKind) : TNode → List String
  | .dummy => []
  | .node p s kids =>
    (if s = CheckState.checked ∧ fs p = FsKind.file ∧ endsWithStr p ".pdf" = false
      then [p] else [])
      ++ checkedItemsL fs kids
/-- checkedItemsN over a list of subtrees. -/
def checkedItemsL (fs : String → FsKind) : List TNode → List String
  | [] => []
  | c :: cs => checkedItemsN fs c ++ checkedItemsL fs cs
end

/-- get_checked_items over the whole forest (app.py lines 344-366). -/
def get_checked_items (fs : String → FsKind) (roots : List TNode) : List String :=
  checkedItemsL fs roots

/-- The per-item emission test of the get_checked_items traversal, as an
optional result: the path of a checked item that is a file on disk and
does not already end in .pdf, none otherwise. -/
def emitTest (fs : String → FsKind) : TNode → Option String
  | .dummy => none
  | .node p s _ =>
    if s = CheckState.checked ∧ fs p = FsKind.file ∧ endsWithStr p ".pdf" = false
      then some p else none

mutual
/-- Depth-first preorder enumeration of every item of a subtree, used to
state which items get_checked_items visits. -/
def allNodesN : TNode → List TNode
  | .dummy => [.dummy]
  | .node p s kids => .node p s kids :: allNodesL kids
/-- allNodesN over a list of subtrees. -/
def allNodesL : List TNode → List TNode
  | [] => []
  | c :: cs => allNodesN c ++ allNodesL cs
end

/-- The two output formats of the converter. -/
inductive Fmt where
  | pdf
  | txt
deriving DecidableEq, Repr

/-- Extension written for a format. -/
def extOf : Fmt → String
  | .pdf => ".pdf"
  | .txt => ".txt"

/-- Modelled from the spec, for comparison with the code: a path already in
the target output format, for the requested format set. -/
def inTargetFormat (pdfOn txtOn : Bool) (p : String) : Bool :=
  ((if pdfOn then [Fmt.pdf] else []) ++ (if txtOn then [Fmt.txt] else [])).any
    (fun fm => endsWithStr p (extOf fm))

/-- The format list run_conversion builds for a file (app.py lines
452-459): pdf when the pdf box is ticked, txt when the txt box is ticked,
defaulting to pdf alone when neither is ticked. -/
def formatsOf (pdfOn txtOn : Bool) : List Fmt :=
  let fs := (if pdfOn then [Fmt.pdf] else []) ++ (if txtOn then [Fmt.txt] else [])
  if fs.isEmpty then [Fmt.pdf] else fs

/-- An entry placed on the gui_queue by the worker or the scanner
(app.py run_conversion, stop_conversion, scan_and_enqueue_children).
The success and fail events carry the running counter value, as the code
sends them. -/
inductive Ev where
  | success (n : Nat)
  | fail (n : Nat)
  | log (msg : String)
  | progress (k : Nat)
  | message (msg : String)
  | buttons
deriving DecidableEq, Repr

/-- Success or failure classification of an event: some true for a success
event, some false for a fail event, none otherwise. -/
def evKind : Ev → Option Bool
  | .success _ => some true
  | .fail _ => some false
  | _ => none

/-- True for a progress event. -/
def isProgress : Ev → Bool
  | .progress _ => true
  | _ => false

/-- True for a success or fail event. -/
def isTaskEv : Ev → Bool
  | .success _ => true
  | .fail _ => true
  | _ => false

/-- True for a log event. -/
def isLogEv : Ev → Bool
  | .log _ => true
  | _ => false

/-- One format task of run_conversion for one source file (the pdf block,
lines 461-474, or the txt block, lines 476-494): on success the success
counter is bumped and a success event plus a log event are queued; on any
caught exception the fail counter is bumped and a fail event plus a log
event are queued.  The outcome of the external conversion is an oracle
boolean. -/
def fmtTask (fm : Fmt) (src : String) (ok : Bool) (s f : Nat) : List Ev × Nat × Nat :=
  if ok then
    ([Ev.success (s + 1), Ev.log ("Converted " ++ src ++ " as " ++ extOf fm)], s + 1, f)
  else
    ([Ev.fail (f + 1), Ev.log ("Failed to convert " ++ src ++ " as " ++ extOf fm)], s, f + 1)

/-- The body of the run_conversion loop for one non-directory file
(app.py lines 451-497): the pdf task when pdf is in the format list, then
the txt task when txt is in the format list, then a single progress event
of step one for the file. -/
def doFile (pdfOn txtOn : Bool) (ok : Fmt → Bool) (src : String) (s f : Nat) :
    List Ev × Nat × Nat :=
  let fmts := formatsOf pdfOn txtOn
  let r1 := if Fmt.pdf ∈ fmts then fmtTask Fmt.pdf src (ok Fmt.pdf) s f else ([], s, f)
  let r2 := if Fmt.txt ∈ fmts then fmtTask Fmt.txt src (ok Fmt.txt) r1.2.1 r1.2.2
            else ([], r1.2.1, r1.2.2)
  (r1.1 ++ r2.1 ++ [Ev.progress 1], r2.2.1, r2.2.2)

/-- Events appended after the loop of run_conversion (lines 499-504): the
all-files-converted message unless the stop flag reads set, then always the
re-enable buttons event. -/
def tailEvents (stopFinal : Bool) : List Ev :=
  (if stopFinal then [] else [Ev.message "All files have been converted."]) ++ [Ev.buttons]

/-- The run_conversion loop from position i with running counters
(app.py lines 443-504).  stopAt j models the read of stop_event at the top
of iteration j; stopFinal models the read at line 500; isDir models
os.path.isdir; ok j fm models success of the external conversion of the
file at position j in format fm.  On a set stop flag the loop emits the
stopped-by-user log and breaks. -/
def runFrom (pdfOn txtOn : Bool) (isDir : String → Bool) (ok : Nat → Fmt → Bool)
    (stopAt : Nat → Bool) (stopFinal : Bool) :
    Nat → Nat → Nat → List String → List Ev × Nat × Nat
  | _, s, f, [] => (tailEvents stopFinal, s, f)
  | i, s, f, src :: rest =>
    if stopAt i then (Ev.log "Conversion stopped by user." :: tailEvents stopFinal, s, f)
    else if isDir src then runFrom pdfOn txtOn isDir ok stopAt stopFinal (i + 1) s f rest
    else
      let r := doFile pdfOn txtOn (ok i) src s f
      let r2 := runFrom pdfOn txtOn isDir ok stopAt stopFinal (i + 1) r.2.1 r.2.2 rest
      (r.1 ++ r2.1, r2.2)

/-- run_conversion (app.py lines 434-504): the loop from position zero with
both counters at zero, returning the queued events in order together with
the final success and fail counters. -/
def run_conversion (pdfOn txtOn : Bool) (isDir : String → Bool) (ok : Nat → Fmt → Bool)
    (stopAt : Nat → Bool) (stopFinal : Bool) (selected_items : List String) :
    List Ev × Nat × Nat :=
  runFrom pdfOn txtOn isDir ok stopAt stopFinal 0 0 0 selected_items

/-- The per-file processing of run_conversion alone, without the stop flag
and without the tail events, used to state what a stopped or completed run
has processed. -/
def procList (pdfOn txtOn : Bool) (isDir : String → Bool) (ok : Nat → Fmt → Bool) :
    Nat → Nat → Nat → List String → List Ev × Nat × Nat
  | _, s, f, [] => ([], s, f)
  | i, s, f, src :: rest =>
    if isDir src then procList pdfOn txtOn isDir ok (i + 1) s f rest
    else
      let r := doFile pdfOn txtOn (ok i) src s f
      let r2 := procList pdfOn txtOn isDir ok (i + 1) r.2.1 r.2.2 rest
      (r.1 ++ r2.1, r2.2)

/-- The expected success and failure outcomes, one per (file, format) pair
in snapshot order: one block of outcomes per file, files at positions i,
i+1, ..., i+n-1 of the snapshot, each block listing the outcome of every
requested format in format-list order. -/
def expectedKinds (pdfOn txtOn : Bool) (ok : Nat → Fmt → Bool) : Nat → Nat → List Bool
  | _, 0 => []
  | i, n + 1 => (formatsOf pdfOn txtOn).map (ok i) ++ expectedKinds pdfOn txtOn ok (i + 1) n

/-- Kind of one directory entry as DirEntry classification sees it
(app.py lines 592-601): a directory, a file, or neither (for example a
dangling symlink), never following symlinks. -/
inductive EntryKind where
  | dir
  | file
  | other
deriving DecidableEq, Repr

/-- One entry of a directory listing, already in the lower-case name order
produced by the sorted call at line 586. -/
structure Entry where
  epath : String
  ekind : EntryKind
deriving DecidableEq, Repr

/-- A message placed on the tree_queue by the scanner (app.py lines 594 and
599), later drained into a Treeview insertion by process_tree_queue. -/
inductive TreeMsg where
  | directory (path : String)
  | file (path : String)
deriving DecidableEq, Repr

/-- The entry loop of scan_and_enqueue_children (app.py lines 586-601):
before each entry the stop flag is read; a directory or file entry is
enqueued on the tree_queue, any other entry is skipped silently. -/
def scanEntries (stopAt : Nat → Bool) : Nat → List Entry → List TreeMsg
  | _, [] => []
  | i, e :: es =>
    if stopAt i then []
    else
      match e.ekind with
      | .dir => TreeMsg.directory e.epath :: scanEntries stopAt (i + 1) es
      | .file => TreeMsg.file e.epath :: scanEntries stopAt (i + 1) es
      | .other => scanEntries stopAt (i + 1) es

/-- scan_and_enqueue_children (app.py lines 578-611).  The listing argument
is the result of the os.scandir call plus the sorted materialisation: an
error value when the scan of the directory itself raises (permission or
any other failure), in which case nothing was enqueued yet and a single
error log event is queued; otherwise the sorted entry list, processed by
the entry loop.  After either branch, when nothing was enqueued the
no-eligible-entries log event is queued (lines 609-611).  Returns the
tree_queue messages and the gui_queue events, each in order. -/
def scan_and_enqueue_children (listing : Except String (List Entry))
    (stopAt : Nat → Bool) (dirPath : String) : List TreeMsg × List Ev :=
  match listing with
  | .error msg =>
    ([], [Ev.log ("Error scanning " ++ dirPath ++ ": " ++ msg)]
          ++ [Ev.log ("No eligible files or directories found in: " ++ dirPath)])
  | .ok entries =>
    let msgs := scanEntries stopAt 0 entries
    (msgs,
      if msgs.isEmpty
        then [Ev.log ("No eligible files or directories found in: " ++ dirPath)]
        else [])

/-- on_treeview_open (app.py lines 214-235) acting on the children list of
the focused node: when the node has exactly one child and that child is
the dummy placeholder, the dummy is deleted and a background scan of the
node is started; in every other case nothing happens.  Returns the new
children list and whether a scan thread was started. -/
def on_treeview_open (kids : List TNode) : List TNode × Bool :=
  match kids with
  | [c] => if c.isDummy then ([], true) else ([c], false)
  | _ => (kids, false)

/-- Concrete forest for the claim C1 counterexample: a directory D holding
a subdirectory A with two files a1 and a2, and a file B, everything
unchecked. -/
def demoC1 : List TNode :=
  [.node "D" .unchecked
    [.node "A" .unchecked [.node "a1" .unchecked [], .node "a2" .unchecked []],
     .node "B" .unchecked []]]

/-- Concrete forest for the claim C4 counterexample: a single checked file
item for the path a.py. -/
def demoC4 : List TNode :=
  [.node "a.py" .checked []]

/-- Filesystem at lock time for the claim C4 counterexample: a.py exists as
a file. -/
def fsLockC4 : String → FsKind :=
  fun p => if p = "a.py" then FsKind.file else FsKind.missing

/-- Filesystem at start time for the claim C4 counterexample: a.py was
deleted between locking and starting. -/
def fsStartC4 : String → FsKind :=
  fun _ => FsKind.missing

/-- Concrete forest for the claim C5 counterexample: a single checked file
item for the path a.txt. -/
def demoC5 : List TNode :=
  [.node "a.txt" .checked []]

/-- Filesystem for the claim C5 counterexample: a.txt exists as a file. -/
def fsC5 : String → FsKind :=
  fun p => if p = "a.txt" then FsKind.file else FsKind.missing

/-- Concrete forest for the claim C8 witness: an unchecked directory d
holding a checked file f. -/
def demoC8 : List TNode :=
  [.node "d" .unchecked [.node "f" .checked []]]

/-- Concrete forest for the claim C10 witness: a directory d in the mixed
state with one checked and one unchecked file child. -/
def demoC10 : List TNode :=
  [.node "d" .mixed [.node "f" .checked [], .node "g" .unchecked []]]

/-- Cascading preserves the dummy or real nature of an item. -/
theorem isDummy_set_and_cascade (b : CheckState) (n : TNode) :
    (set_and_cascade b n).isDummy = n.isDummy := by
  cases n <;> simp [set_and_cascade, TNode.isDummy]

/-- A pointwise test invariant under cascading is invariant on child
lists. -/
theorem all_update_children (b : CheckState) (p : TNode → Bool)
    (h : ∀ n, p (set_and_cascade b n) = p n) :
    ∀ l : List TNode, (update_children b l).all p = l.all p
  | [] => rfl
  | c :: cs => by
    simp [update_children, List.all_cons, h c, all_update_children b p h cs]

/-- update_children preserves the no-mixed-siblings shape. -/
theorem noMixedKids_update_children (b : CheckState) (l : List TNode) :
    noMixedKids (update_children b l) = noMixedKids l := by
  unfold noMixedKids
  rw [all_update_children b TNode.isDummy (fun n => isDummy_set_and_cascade b n) l,
    all_update_children b (fun c => !c.isDummy) (fun n => by simp [isDummy_set_and_cascade]) l]

mutual
/-- After a cascade with state b every real item of the subtree carries
state b. -/
theorem allState_set_and_cascade (b : CheckState) :
    ∀ n : TNode, allStateN b (set_and_cascade b n) = true
  | TNode.dummy => rfl
  | TNode.node p s kids => by
    simp [set_and_cascade, allStateN, allState_update_children b kids]
/-- List version of allState_set_and_cascade. -/
theorem allState_update_children (b : CheckState) :
    ∀ l : List TNode, allStateL b (update_children b l) = true
  | [] => rfl
  | c :: cs => by
    simp [update_children, allStateL, allState_set_and_cascade b c,
      allState_update_children b cs]
end

mutual
/-- Cascading preserves well-formedness. -/
theorem wf_set_and_cascade (b : CheckState) :
    ∀ n : TNode, wfN (set_and_cascade b n) = wfN n
  | TNode.dummy => rfl
  | TNode.node p s kids => by
    simp [set_and_cascade, wfN, noMixedKids_update_children b kids,
      wf_update_children b kids]
/-- List version of wf_set_and_cascade. -/
theorem wf_update_children (b : CheckState) :
    ∀ l : List TNode, wfL (update_children b l) = wfL l
  | [] => rfl
  | c :: cs => by
    simp [update_children, wfL, wf_set_and_cascade b c, wf_update_children b cs]
end

/-- In an all-real, all-checked list every item counts as checked. -/
theorem countP_of_allChecked :
    ∀ l : List TNode, l.all (fun c => !c.isDummy) = true → allStateL .checked l = true →
      l.countP countsChecked = l.length
  | [], _, _ => rfl
  | c :: cs, hr, hs => by
    simp only [List.all_cons, Bool.and_eq_true] at hr
    simp only [allStateL, Bool.and_eq_true] at hs
    have hc : countsChecked c = true := by
      cases c with
      | dummy => simp [TNode.isDummy] at hr
      | node p s kids =>
        simp only [allStateN, Bool.and_eq_true, decide_eq_true_eq] at hs
        rw [hs.1.1]; rfl
    simp [List.countP_cons, hc, countP_of_allChecked cs hr.2 hs.2]

/-- In an all-real, all-unchecked list no item counts as checked and every
item counts as unchecked. -/
theorem countP_of_allUnchecked :
    ∀ l : List TNode, l.all (fun c => !c.isDummy) = true → allStateL .unchecked l = true →
      l.countP countsChecked = 0 ∧ l.countP countsUnchecked = l.length
  | [], _, _ => ⟨rfl, rfl⟩
  | c :: cs, hr, hs => by
    simp only [List.all_cons, Bool.and_eq_true] at hr
    simp only [allStateL, Bool.and_eq_true] at hs
    have hcu : countsChecked c = false ∧ countsUnchecked c = true := by
      cases c with
      | dummy => simp [TNode.isDummy] at hr
      | node p s kids =>
        simp only [allStateN, Bool.and_eq_true, decide_eq_true_eq] at hs
        rw [hs.1.1]; exact ⟨rfl, rfl⟩
    have ih := countP_of_allUnchecked cs hr.2 hs.2
    constructor
    · simp [List.countP_cons, hcu.1, ih.1]
    · simp [List.countP_cons, hcu.2, ih.2]

/-- parent_check_state of a nonempty all-real all-checked list is
checked. -/
theorem parent_check_state_allChecked (l : List TNode)
    (hr : l.all (fun c => !c.isDummy) = true) (hs : allStateL .checked l = true) :
    parent_check_state l = .checked := by
  unfold parent_check_state
  rw [countP_of_allChecked l hr hs]
  simp

/-- parent_check_state of a nonempty all-real all-unchecked list is
unchecked. -/
theorem parent_check_state_allUnchecked (l : List TNode) (hne : l ≠ [])
    (hr : l.all (fun c => !c.isDummy) = true) (hs : allStateL .unchecked l = true) :
    parent_check_state l = .unchecked := by
  unfold parent_check_state
  obtain ⟨h0, h1⟩ := countP_of_allUnchecked l hr hs
  rw [h0, h1]
  have : l.length ≠ 0 := by
    cases l with
    | nil => exact absurd rfl hne
    | cons c cs => simp
  simp [Ne.symm this]

/-- A pointwise test invariant under cascading is invariant on child lists
for the existential form as well. -/
theorem any_update_children (b : CheckState) (p : TNode → Bool)
    (h : ∀ n, p (set_and_cascade b n) = p n) :
    ∀ l : List TNode, (update_children b l).any p = l.any p
  | [] => rfl
  | c :: cs => by
    simp [update_children, List.any_cons, h c, any_update_children b p h cs]

/-- In a no-mixed sibling list with at least one real item, every item is
real. -/
theorem all_real_of_noMixed (l : List TNode) (hnm : noMixedKids l = true)
    (ha : l.any (fun c => !c.isDummy) = true) : l.all (fun c => !c.isDummy) = true := by
  unfold noMixedKids at hnm
  rcases Bool.or_eq_true_iff.mp hnm with h | h
  · exfalso
    obtain ⟨c, hcl, hc⟩ := List.any_eq_true.mp ha
    have hd := List.all_eq_true.mp h c hcl
    rw [hd] at hc
    simp at hc
  · exact h

mutual
/-- After a binary cascade over a well-formed subtree the code invariant
holds everywhere in the result. -/
theorem inv_set_and_cascade (b : CheckState)
    (hb : b = CheckState.checked ∨ b = CheckState.unchecked) :
    ∀ n : TNode, wfN n = true → invN (set_and_cascade b n) = true
  | TNode.dummy, _ => rfl
  | TNode.node p s kids, hwf => by
    simp only [wfN, Bool.and_eq_true] at hwf
    have hinvL := inv_update_children b hb kids hwf.2
    simp only [set_and_cascade, invN, Bool.and_eq_true]
    refine ⟨?_, hinvL⟩
    by_cases hany : ((update_children b kids).any (fun c => !c.isDummy)) = true
    · rw [if_pos hany, decide_eq_true_eq]
      have hanyk : kids.any (fun c => !c.isDummy) = true := by
        rw [← any_update_children b (fun c => !c.isDummy)
          (fun n => by simp [isDummy_set_and_cascade]) kids]
        exact hany
      have hallreal : kids.all (fun c => !c.isDummy) = true :=
        all_real_of_noMixed kids hwf.1 hanyk
      have hallreal' : (update_children b kids).all (fun c => !c.isDummy) = true := by
        rw [all_update_children b (fun c => !c.isDummy)
          (fun n => by simp [isDummy_set_and_cascade]) kids]
        exact hallreal
      have hstates := allState_update_children b kids
      have hne : update_children b kids ≠ [] := by
        obtain ⟨c, hcl, _⟩ := List.any_eq_true.mp hany
        exact List.ne_nil_of_mem hcl
      rcases hb with rfl | rfl
      · exact (parent_check_state_allChecked _ hallreal' hstates).symm
      · exact (parent_check_state_allUnchecked _ hne hallreal' hstates).symm
    · rw [if_neg hany]
/-- List version of inv_set_and_cascade. -/
theorem inv_update_children (b : CheckState)
    (hb : b = CheckState.checked ∨ b = CheckState.unchecked) :
    ∀ l : List TNode, wfL l = true → invL (update_children b l) = true
  | [], _ => rfl
  | c :: cs, hwf => by
    simp only [wfL, Bool.and_eq_true] at hwf
    simp [update_children, invL, inv_set_and_cascade b hb c hwf.1,
      inv_update_children b hb cs hwf.2]
end

/-- The tag written by a click is always one of the two binary states. -/
theorem toggleTag_not_mixed (s : CheckState) :
    toggleTag s = CheckState.checked ∨ toggleTag s = CheckState.unchecked := by
  cases s <;> simp [toggleTag]

/-- Indexing a list whose members all satisfy wfN yields a wfN member. -/
theorem wfL_get :
    ∀ (l : List TNode) (i : Nat) (c : TNode), l.get? i = some c → wfL l = true → wfN c = true
  | [], _, _, h, _ => by simp at h
  | x :: xs, 0, c, h, hw => by
    simp only [List.get?] at h
    injection h with h
    subst h
    simp only [wfL, Bool.and_eq_true] at hw
    exact hw.1
  | x :: xs, i + 1, c, h, hw => by
    simp only [List.get?] at h
    simp only [wfL, Bool.and_eq_true] at hw
    exact wfL_get xs i c h hw.2

/-- Indexing a list whose members all satisfy invN yields an invN
member. -/
theorem invL_get :
    ∀ (l : List TNode) (i : Nat) (c : TNode), l.get? i = some c → invL l = true → invN c = true
  | [], _, _, h, _ => by simp at h
  | x :: xs, 0, c, h, hw => by
    simp only [List.get?] at h
    injection h with h
    subst h
    simp only [invL, Bool.and_eq_true] at hw
    exact hw.1
  | x :: xs, i + 1, c, h, hw => by
    simp only [List.get?] at h
    simp only [invL, Bool.and_eq_true] at hw
    exact invL_get xs i c h hw.2

/-- Replacing a member by a wfN item keeps the list pointwise wfN. -/
theorem wfL_set :
    ∀ (l : List TNode) (i : Nat) (c' : TNode), wfN c' = true → wfL l = true →
      wfL (l.set i c') = true
  | [], _, _, _, hw => hw
  | x :: xs, 0, c', hc, hw => by
    simp only [List.set]
    simp only [wfL, Bool.and_eq_true] at hw ⊢
    exact ⟨hc, hw.2⟩
  | x :: xs, i + 1, c', hc, hw => by
    simp only [List.set]
    simp only [wfL, Bool.and_eq_true] at hw ⊢
    exact ⟨hw.1, wfL_set xs i c' hc hw.2⟩

/-- Replacing a member by an invN item keeps the list pointwise invN. -/
theorem invL_set :
    ∀ (l : List TNode) (i : Nat) (c' : TNode), invN c' = true → invL l = true →
      invL (l.set i c') = true
  | [], _, _, _, hw => hw
  | x :: xs, 0, c', hc, hw => by
    simp only [List.set]
    simp only [invL, Bool.and_eq_true] at hw ⊢
    exact ⟨hc, hw.2⟩
  | x :: xs, i + 1, c', hc, hw => by
    simp only [List.set]
    simp only [invL, Bool.and_eq_true] at hw ⊢
    exact ⟨hw.1, invL_set xs i c' hc hw.2⟩

/-- A pointwise test is unchanged by replacing one member with another of
equal test value. -/
theorem all_set_eq (p : TNode → Bool) :
    ∀ (l : List TNode) (i : Nat) (c c' : TNode), l.get? i = some c → p c' = p c →
      (l.set i c').all p = l.all p
  | [], _, _, _, h, _ => by simp at h
  | x :: xs, 0, c, c', h, hp => by
    simp only [List.get?] at h
    injection h with h
    subst h
    simp [List.all_cons, hp]
  | x :: xs, i + 1, c, c', h, hp => by
    simp only [List.get?] at h
    simp [List.all_cons, all_set_eq p xs i c c' h hp]

/-- The no-mixed shape survives replacing one member with another of the
same dummy or real nature. -/
theorem noMixedKids_set (l : List TNode) (i : Nat) (c c' : TNode)
    (h : l.get? i = some c) (hp : c'.isDummy = c.isDummy) :
    noMixedKids (l.set i c') = noMixedKids l := by
  unfold noMixedKids
  rw [all_set_eq TNode.isDummy l i c c' h hp,
    all_set_eq (fun x => !x.isDummy) l i c c' h (by simp [hp])]

/-- A successful click always yields a real item. -/
theorem clickNode_real :
    ∀ (pa : List Nat) (n n' : TNode), clickNode pa n = some n' → n'.isDummy = false
  | _, TNode.dummy, _, h => by simp [clickNode] at h
  | [], TNode.node p s kids, n', h => by
    simp only [clickNode, Option.some.injEq] at h
    rw [← h]
    simp [set_and_cascade, TNode.isDummy]
  | i :: rest, TNode.node p s kids, n', h => by
    simp only [clickNode] at h
    split at h
    · simp at h
    · split at h
      · simp at h
      · simp only [Option.some.injEq] at h
        rw [← h]
        simp [TNode.isDummy]

/-- A click through a well-formed subtree keeps it well-formed. -/
theorem clickNode_wf :
    ∀ (pa : List Nat) (n n' : TNode), wfN n = true → clickNode pa n = some n' →
      wfN n' = true
  | _, TNode.dummy, _, _, h => by simp [clickNode] at h
  | [], TNode.node p s kids, n', hwf, h => by
    simp only [clickNode, Option.some.injEq] at h
    rw [← h, wf_set_and_cascade]
    exact hwf
  | i :: rest, TNode.node p s kids, n', hwf, h => by
    simp only [clickNode] at h
    split at h
    · simp at h
    · rename_i c hg
      split at h
      · simp at h
      · rename_i c' hc
        simp only [Option.some.injEq] at h
        simp only [wfN, Bool.and_eq_true] at hwf
        have hwc : wfN c = true := wfL_get kids i c hg hwf.2
        have hwc' : wfN c' = true := clickNode_wf rest c c' hwc hc
        have hreal : c.isDummy = false := by
          cases c with
          | dummy => simp [clickNode] at hc
          | node q t ks => rfl
        have hreal' : c'.isDummy = false := clickNode_real rest c c' hc
        rw [← h]
        simp only [wfN, Bool.and_eq_true]
        constructor
        · rw [noMixedKids_set kids i c c' hg (by rw [hreal, hreal'])]
          exact hwf.1
        · exact wfL_set kids i c' hwc' hwf.2

/-- A click through a well-formed subtree satisfying the code invariant
yields a subtree satisfying the code invariant. -/
theorem clickNode_inv :
    ∀ (pa : List Nat) (n n' : TNode), wfN n = true → invN n = true →
      clickNode pa n = some n' → invN n' = true
  | _, TNode.dummy, _, _, _, h => by simp [clickNode] at h
  | [], TNode.node p s kids, n', hwf, _, h => by
    simp only [clickNode, Option.some.injEq] at h
    rw [← h]
    exact inv_set_and_cascade (toggleTag s) (toggleTag_not_mixed s) _ hwf
  | i :: rest, TNode.node p s kids, n', hwf, hinv, h => by
    simp only [clickNode] at h
    split at h
    · simp at h
    · rename_i c hg
      split at h
      · simp at h
      · rename_i c' hc
        simp only [Option.some.injEq] at h
        simp only [wfN, Bool.and_eq_true] at hwf
        simp only [invN, Bool.and_eq_true] at hinv
        have hwc : wfN c = true := wfL_get kids i c hg hwf.2
        have hic : invN c = true := invL_get kids i c hg hinv.2
        have hic' : invN c' = true := clickNode_inv rest c c' hwc hic hc
        rw [← h]
        simp only [invN, Bool.and_eq_true]
        constructor
        · split
          · simp
          · rfl
        · exact invL_set kids i c' hic' hinv.2

/-- One click on the forest keeps every subtree well-formed. -/
theorem click_wfL (roots : List TNode) (pa : List Nat) (hwf : wfL roots = true) :
    wfL (on_treeview_click roots pa) = true := by
  cases pa with
  | nil => exact hwf
  | cons i rest =>
    simp only [on_treeview_click]
    split
    · exact hwf
    · rename_i r hg
      split
      · exact hwf
      · rename_i r' hc
        exact wfL_set roots i r' (clickNode_wf rest r r' (wfL_get roots i r hg hwf) hc) hwf

/-- One click on the forest preserves the code invariant. -/
theorem click_invL (roots : List TNode) (pa : List Nat) (hwf : wfL roots = true)
    (hinv : invL roots = true) : invL (on_treeview_click roots pa) = true := by
  cases pa with
  | nil => exact hinv
  | cons i rest =>
    simp only [on_treeview_click]
    split
    · exact hinv
    · rename_i r hg
      split
      · exact hinv
      · rename_i r' hc
        have hwr : wfN r = true := wfL_get roots i r hg hwf
        have hir : invN r = true := invL_get roots i r hg hinv
        exact invL_set roots i r' (clickNode_inv rest r r' hwr hir hc) hinv

/-- A sequence of clicks keeps the forest well-formed and keeps the code
invariant. -/
theorem clickSeq_wf_inv :
    ∀ (ps : List (List Nat)) (roots : List TNode), wfL roots = true → invL roots = true →
      wfL (clickSeq roots ps) = true ∧ invL (clickSeq roots ps) = true
  | [], roots, hwf, hinv => ⟨hwf, hinv⟩
  | pa :: ps, roots, hwf, hinv =>
    clickSeq_wf_inv ps (on_treeview_click roots pa)
      (click_wfL roots pa hwf) (click_invL roots pa hwf hinv)

/-- Replacing the member found at an index overwrites what lookup at that
index returns. -/
theorem get?_set_some :
    ∀ (l : List TNode) (i : Nat) (c c' : TNode), l.get? i = some c →
      (l.set i c').get? i = some c'
  | [], _, _, _, h => by simp at h
  | _ :: _, 0, _, _, _ => rfl
  | x :: xs, i + 1, c, c', h => by
    simp only [List.get?] at h
    simpa only [List.set, List.get?] using get?_set_some xs i c c' h

/-- Clicking the real item found at a path replaces, at that path, the item
by its toggled cascaded form, whatever recomputations happen on the
ancestors. -/
theorem clickNode_getNode :
    ∀ (pa : List Nat) (n : TNode) (q : String) (s : CheckState) (kids : List TNode),
      getNodeN pa n = some (TNode.node q s kids) →
      ∃ n', clickNode pa n = some n' ∧
        getNodeN pa n' = some (set_and_cascade (toggleTag s) (TNode.node q s kids))
  | [], n, q, s, kids, h => by
    simp only [getNodeN, Option.some.injEq] at h
    subst h
    exact ⟨_, rfl, rfl⟩
  | _ :: _, TNode.dummy, q, s, kids, h => by simp [getNodeN] at h
  | i :: rest, TNode.node q0 s0 kids0, q, s, kids, h => by
    simp only [getNodeN] at h
    split at h
    · simp at h
    · rename_i c hg
      obtain ⟨c', hc, hgc⟩ := clickNode_getNode rest c q s kids h
      refine ⟨TNode.node q0 (parent_check_state (kids0.set i c')) (kids0.set i c'), ?_, ?_⟩
      · simp only [clickNode, hg, hc]
      · simp only [getNodeN, get?_set_some kids0 i c c' hg]
        exact hgc

/-- Forest version of clickNode_getNode. -/
theorem click_getNodeF :
    ∀ (roots : List TNode) (pa : List Nat) (q : String) (s : CheckState) (kids : List TNode),
      getNodeF roots pa = some (TNode.node q s kids) →
      getNodeF (on_treeview_click roots pa) pa
        = some (set_and_cascade (toggleTag s) (TNode.node q s kids))
  | _, [], q, s, kids, h => by simp [getNodeF] at h
  | roots, i :: rest, q, s, kids, h => by
    simp only [getNodeF] at h
    split at h
    · simp at h
    · rename_i r hg
      obtain ⟨r', hc, hgr⟩ := clickNode_getNode rest r q s kids h
      simp only [on_treeview_click, hg, hc, getNodeF, get?_set_some roots i r r' hg]
      exact hgr

/-- C1 (counterexample): the claim states that after any sequence of
toggles a directory is checked exactly when every loaded child is checked,
unchecked exactly when every loaded child is unchecked, and in the mixed
state otherwise.  Starting from the well-formed forest demoC1, which
satisfies that strict rule, clicking the file a1 and then the file B
leaves the directory D checked although its loaded child A is in the mixed
state, so the strict rule fails. -/
theorem c1_strict_rule_counterexample :
    wfL demoC1 = true ∧ strictInvL demoC1 = true ∧
      strictInvL (clickSeq demoC1 [[0, 0, 0], [0, 1]]) = false := by
  refine ⟨by decide, by decide, by decide⟩

/-- C1 (amended): after any sequence of checkbox toggles on a well-formed
forest, every directory item with at least one loaded child carries
exactly the state parent_check_state computes from its immediate children:
checked when every loaded child is checked or mixed, unchecked when every
loaded child is unchecked, mixed otherwise.  The only amendment to the
claim is that a child in the mixed state counts toward the all-checked
test, because update_parent_check counts the mixed mark in its checked
counter. -/
theorem c1_directory_state_invariant (roots : List TNode) (ps : List (List Nat))
    (hwf : wfL roots = true) (hinv : invL roots = true) :
    invL (clickSeq roots ps) = true :=
  (clickSeq_wf_inv ps roots hwf hinv).2

/-- Witness for c1_directory_state_invariant on the concrete forest demoC1
and the click sequence of the counterexample. -/
theorem c1_directory_state_invariant_witness :
    wfL demoC1 = true ∧ invL demoC1 = true ∧
      invL (clickSeq demoC1 [[0, 0, 0], [0, 1]]) = true :=
  ⟨by decide, by decide,
    c1_directory_state_invariant demoC1 [[0, 0, 0], [0, 1]] (by decide) (by decide)⟩

/-- C8: clicking a directory item that is not checked (so the toggle makes
it checked) and then clicking it again (the toggle makes it unchecked)
leaves every item of its subtree, loaded descendants included, in the
unchecked state. -/
theorem c8_check_then_uncheck_roundtrip (roots : List TNode) (pa : List Nat)
    (q : String) (s : CheckState) (kids : List TNode)
    (h : getNodeF roots pa = some (TNode.node q s kids)) (hs : s ≠ CheckState.checked) :
    ∃ t, getNodeF (on_treeview_click (on_treeview_click roots pa) pa) pa = some t ∧
      allStateN CheckState.unchecked t = true := by
  have h1 := click_getNodeF roots pa q s kids h
  have hb : toggleTag s = CheckState.checked := by
    cases s with
    | unchecked => rfl
    | checked => exact absurd rfl hs
    | mixed => rfl
  rw [hb] at h1
  have h1' : getNodeF (on_treeview_click roots pa) pa
      = some (TNode.node q CheckState.checked (update_children CheckState.checked kids)) := by
    simpa [set_and_cascade] using h1
  have h2 := click_getNodeF (on_treeview_click roots pa) pa q CheckState.checked
    (update_children CheckState.checked kids) h1'
  refine ⟨_, h2, ?_⟩
  have ht : toggleTag CheckState.checked = CheckState.unchecked := rfl
  rw [ht]
  exact allState_set_and_cascade CheckState.unchecked _

/-- Witness for c8_check_then_uncheck_roundtrip on the concrete forest
demoC8 at the directory item d. -/
theorem c8_check_then_uncheck_roundtrip_witness :
    ∃ t, getNodeF (on_treeview_click (on_treeview_click demoC8 [0]) [0]) [0] = some t ∧
      allStateN CheckState.unchecked t = true :=
  c8_check_then_uncheck_roundtrip demoC8 [0] "d" CheckState.unchecked
    [TNode.node "f" CheckState.checked []] rfl (by decide)

/-- A click lands on the same result whether the clicked item was in the
mixed state or in the unchecked state, because on_treeview_click maps both
marks to the checked tag and the cascade overwrites the old state. -/
theorem clickNode_mixed_as_unchecked :
    ∀ (pa : List Nat) (n : TNode) (q : String) (kids : List TNode),
      getNodeN pa n = some (TNode.node q CheckState.mixed kids) →
      clickNode pa n = clickNode pa (setStateN CheckState.unchecked pa n)
  | [], n, q, kids, h => by
    simp only [getNodeN, Option.some.injEq] at h
    subst h
    rfl
  | _ :: _, TNode.dummy, q, kids, h => by simp [getNodeN] at h
  | i :: rest, TNode.node q0 s0 kids0, q, kids, h => by
    simp only [getNodeN] at h
    split at h
    · simp at h
    · rename_i c hg
      have ih := clickNode_mixed_as_unchecked rest c q kids h
      simp only [setStateN, hg]
      simp only [clickNode, hg,
        get?_set_some kids0 i c (setStateN CheckState.unchecked rest c) hg]
      rw [← ih]
      cases hc : clickNode rest c with
      | none => rfl
      | some c' => simp only [List.set_set]

/-- C10: clicking an item in the mixed state produces exactly the forest a
checked toggle request produces (the forest is the same as clicking the
same item with its state replaced by unchecked, which toggles to checked),
and afterwards the whole subtree of the clicked item, loaded descendants
included, is checked. -/
theorem c10_mixed_click_checks (roots : List TNode) (pa : List Nat)
    (q : String) (kids : List TNode)
    (h : getNodeF roots pa = some (TNode.node q CheckState.mixed kids)) :
    on_treeview_click roots pa
        = on_treeview_click (setStateF CheckState.unchecked roots pa) pa ∧
      ∃ t, getNodeF (on_treeview_click roots pa) pa = some t ∧
        allStateN CheckState.checked t = true := by
  constructor
  · cases pa with
    | nil => simp [getNodeF] at h
    | cons i rest =>
      simp only [getNodeF] at h
      split at h
      · simp at h
      · rename_i r hg
        have ih := clickNode_mixed_as_unchecked rest r q kids h
        obtain ⟨r', hc, _⟩ := clickNode_getNode rest r q CheckState.mixed kids h
        simp only [on_treeview_click, setStateF, hg, hc,
          get?_set_some roots i r (setStateN CheckState.unchecked rest r) hg]
        rw [← ih, hc]
        simp only [List.set_set]
  · have h1 := click_getNodeF roots pa q CheckState.mixed kids h
    refine ⟨_, h1, ?_⟩
    have ht : toggleTag CheckState.mixed = CheckState.checked := rfl
    rw [ht]
    exact allState_set_and_cascade CheckState.checked _

/-- Witness for c10_mixed_click_checks at the mixed directory item d of
demoC10. -/
theorem c10_mixed_click_checks_witness :
    on_treeview_click demoC10 [0]
        = on_treeview_click (setStateF CheckState.unchecked demoC10 [0]) [0] ∧
      ∃ t, getNodeF (on_treeview_click demoC10 [0]) [0] = some t ∧
        allStateN CheckState.checked t = true :=
  c10_mixed_click_checks demoC10 [0] "d"
    [TNode.node "f" CheckState.checked [], TNode.node "g" CheckState.unchecked []] rfl

/-- C9: on a directory whose children are not yet loaded (exactly one
child, the dummy placeholder) expanding deletes the placeholder and starts
one background scan; expanding again at any later moment, while the scan
is still in flight (children gone or partly inserted) or after the
children are loaded, finds no dummy child and is a no-op that starts no
scan, so the children are inserted exactly once. -/
theorem c9_expand_idempotent :
    on_treeview_open [TNode.dummy] = ([], true) ∧
      ∀ kids : List TNode, kids.all (fun c => !c.isDummy) = true →
        on_treeview_open kids = (kids, false) := by
  refine ⟨rfl, ?_⟩
  intro kids hk
  match kids with
  | [] => rfl
  | [c] =>
    simp only [List.all_cons, List.all_nil, Bool.and_true, Bool.not_eq_true'] at hk
    simp [on_treeview_open, hk]
  | c :: d :: rest => rfl

/-- Witness for c9_expand_idempotent: the second expand after one real
child arrived is a no-op. -/
theorem c9_expand_idempotent_witness :
    on_treeview_open [TNode.dummy] = ([], true) ∧
      on_treeview_open [TNode.node "x" CheckState.unchecked []]
        = ([TNode.node "x" CheckState.unchecked []], false) :=
  ⟨c9_expand_idempotent.1,
    c9_expand_idempotent.2 [TNode.node "x" CheckState.unchecked []] (by decide)⟩

/-- The four concrete format lists. -/
theorem formatsOf_cases (pdfOn txtOn : Bool) :
    formatsOf pdfOn txtOn = [Fmt.pdf, Fmt.txt] ∨ formatsOf pdfOn txtOn = [Fmt.pdf]
      ∨ formatsOf pdfOn txtOn = [Fmt.txt] := by
  cases pdfOn <;> cases txtOn <;> simp [formatsOf]

/-- The format list is never empty: at least one format is always
requested. -/
theorem formatsOf_length_pos (pdfOn txtOn : Bool) :
    1 ≤ (formatsOf pdfOn txtOn).length := by
  cases pdfOn <;> cases txtOn <;> simp [formatsOf]

/-- Event bookkeeping for one file of the conversion loop: one success or
fail event per requested format, in format order; exactly one progress
event; one log event per requested format; and the counters advance by the
number of successes and failures of the file. -/
theorem doFile_spec (pdfOn txtOn : Bool) (okf : Fmt → Bool) (src : String) (s f : Nat) :
    (doFile pdfOn txtOn okf src s f).1.filterMap evKind = (formatsOf pdfOn txtOn).map okf ∧
    (doFile pdfOn txtOn okf src s f).1.countP isProgress = 1 ∧
    (doFile pdfOn txtOn okf src s f).1.countP isLogEv = (formatsOf pdfOn txtOn).length ∧
    (doFile pdfOn txtOn okf src s f).2.1 = s + ((formatsOf pdfOn txtOn).map okf).count true ∧
    (doFile pdfOn txtOn okf src s f).2.2 = f + ((formatsOf pdfOn txtOn).map okf).count false := by
  cases pdfOn <;> cases txtOn <;>
    cases hp : okf Fmt.pdf <;> cases ht : okf Fmt.txt <;>
      simp [doFile, formatsOf, fmtTask, evKind, isProgress, isLogEv, hp, ht,
        List.count_cons, List.countP_cons]

/-- A format task emits no progress event. -/
theorem fmtTask_no_progress (fm : Fmt) (src : String) (okb : Bool) (s f : Nat) :
    ∀ e ∈ (fmtTask fm src okb s f).1, isProgress e = false := by
  intro e he
  cases okb <;> simp only [fmtTask, Bool.false_eq_true, if_false, if_true] at he <;>
    rcases List.mem_cons.mp he with rfl | he' <;>
      first
        | rfl
        | (rcases List.mem_cons.mp he' with rfl | he'' <;>
            first | rfl | simp at he'')

/-- The only progress event a file iteration emits is progress of step
one. -/
theorem doFile_progress_mem (pdfOn txtOn : Bool) (okf : Fmt → Bool) (src : String)
    (s f : Nat) :
    ∀ e ∈ (doFile pdfOn txtOn okf src s f).1, isProgress e = true → e = Ev.progress 1 := by
  intro e he hpe
  simp only [doFile, List.mem_append] at he
  rcases he with (h1 | h2) | h3
  · exfalso
    split at h1
    · rw [fmtTask_no_progress Fmt.pdf src (okf Fmt.pdf) s f e h1] at hpe
      exact Bool.false_ne_true hpe
    · simp at h1
  · exfalso
    split at h2
    · rw [fmtTask_no_progress Fmt.txt src (okf Fmt.txt) _ _ e h2] at hpe
      exact Bool.false_ne_true hpe
    · simp at h2
  · simpa using h3

/-- When the stop flag never reads set, run_conversion is the per-file
processing of the whole snapshot followed by the tail events. -/
theorem runFrom_no_stop (pdfOn txtOn : Bool) (isDir : String → Bool) (ok : Nat → Fmt → Bool)
    (stopAt : Nat → Bool) (stopFinal : Bool) (hstop : ∀ j, stopAt j = false) :
    ∀ (items : List String) (i s f : Nat),
      runFrom pdfOn txtOn isDir ok stopAt stopFinal i s f items
        = ((procList pdfOn txtOn isDir ok i s f items).1 ++ tailEvents stopFinal,
            (procList pdfOn txtOn isDir ok i s f items).2)
  | [], i, s, f => by simp [runFrom, procList]
  | src :: rest, i, s, f => by
    have ih := runFrom_no_stop pdfOn txtOn isDir ok stopAt stopFinal hstop rest (i + 1)
    by_cases hd : isDir src = true
    · simp [runFrom, procList, hstop i, hd, ih]
    · have hd' : isDir src = false := by revert hd; cases isDir src <;> simp
      simp [runFrom, procList, hstop i, hd', ih]

/-- One file block of expected outcomes, unfolded. -/
theorem expectedKinds_succ (pdfOn txtOn : Bool) (ok : Nat → Fmt → Bool) (i n : Nat) :
    expectedKinds pdfOn txtOn ok i (n + 1)
      = (formatsOf pdfOn txtOn).map (ok i) ++ expectedKinds pdfOn txtOn ok (i + 1) n := rfl

/-- There are exactly length-of-format-list expected outcomes per file. -/
theorem expectedKinds_length (pdfOn txtOn : Bool) (ok : Nat → Fmt → Bool) :
    ∀ (n i : Nat), (expectedKinds pdfOn txtOn ok i n).length
      = n * (formatsOf pdfOn txtOn).length
  | 0, _ => by simp [expectedKinds]
  | n + 1, i => by
    simp [expectedKinds_succ, expectedKinds_length pdfOn txtOn ok n (i + 1), Nat.succ_mul,
      Nat.add_comm]

/-- Full specification of the per-file processing on a snapshot free of
directories: the success and fail events are exactly one per (file,
format) pair in snapshot order; there is exactly one progress event per
file; one log event per (file, format) pair; and the final counters are
the starting counters plus the number of successful and of failed pairs
respectively. -/
theorem procList_spec (pdfOn txtOn : Bool) (isDir : String → Bool) (ok : Nat → Fmt → Bool) :
    ∀ (items : List String) (i s f : Nat), (∀ x ∈ items, isDir x = false) →
      (procList pdfOn txtOn isDir ok i s f items).1.filterMap evKind
          = expectedKinds pdfOn txtOn ok i items.length ∧
      (procList pdfOn txtOn isDir ok i s f items).1.countP isProgress = items.length ∧
      (procList pdfOn txtOn isDir ok i s f items).1.countP isLogEv
          = items.length * (formatsOf pdfOn txtOn).length ∧
      (procList pdfOn txtOn isDir ok i s f items).2.1
          = s + (expectedKinds pdfOn txtOn ok i items.length).count true ∧
      (procList pdfOn txtOn isDir ok i s f items).2.2
          = f + (expectedKinds pdfOn txtOn ok i items.length).count false
  | [], i, s, f, _ => by simp [procList, expectedKinds]
  | src :: rest, i, s, f, hdir => by
    have hd : isDir src = false := hdir src (by simp)
    have hrest : ∀ x ∈ rest, isDir x = false := fun x hx => hdir x (by simp [hx])
    obtain ⟨e1, e2, e3, e4, e5⟩ := doFile_spec pdfOn txtOn (ok i) src s f
    obtain ⟨i1, i2, i3, i4, i5⟩ := procList_spec pdfOn txtOn isDir ok rest (i + 1)
      (doFile pdfOn txtOn (ok i) src s f).2.1 (doFile pdfOn txtOn (ok i) src s f).2.2 hrest
    simp only [procList, hd, Bool.false_eq_true, if_false, List.length_cons]
    refine ⟨?_, ?_, ?_, ?_, ?_⟩
    · simp [List.filterMap_append, e1, i1, expectedKinds_succ]
    · simp [List.countP_append, e2, i2, Nat.add_comm]
    · simp only [List.countP_append, e3, i3, Nat.succ_mul]
      omega
    · rw [i4, e4, expectedKinds_succ, List.count_append]
      omega
    · rw [i5, e5, expectedKinds_succ, List.count_append]
      omega

/-- The only progress events the per-file processing emits are progress
events of step one. -/
theorem procList_progress_mem (pdfOn txtOn : Bool) (isDir : String → Bool)
    (ok : Nat → Fmt → Bool) :
    ∀ (items : List String) (i s f : Nat),
      ∀ e ∈ (procList pdfOn txtOn isDir ok i s f items).1, isProgress e = true →
        e = Ev.progress 1
  | [], _, _, _ => by simp [procList]
  | src :: rest, i, s, f => by
    intro e he hpe
    simp only [procList] at he
    split at he
    · exact procList_progress_mem pdfOn txtOn isDir ok rest (i + 1) s f e he hpe
    · rcases List.mem_append.mp he with h1 | h2
      · exact doFile_progress_mem pdfOn txtOn (ok i) src s f e h1 hpe
      · exact procList_progress_mem pdfOn txtOn isDir ok rest (i + 1) _ _ e h2 hpe

/-- When the stop flag first reads set at file position k, the loop
processes exactly the first k files, logs the stop notice, emits the
re-enable event and nothing else. -/
theorem runFrom_stop (pdfOn txtOn : Bool) (isDir : String → Bool) (ok : Nat → Fmt → Bool)
    (stopAt : Nat → Bool) :
    ∀ (items : List String) (k i s f : Nat),
      k < items.length →
      (∀ j, j < k → stopAt (i + j) = false) →
      stopAt (i + k) = true →
      (∀ x ∈ items, isDir x = false) →
      runFrom pdfOn txtOn isDir ok stopAt true i s f items
        = ((procList pdfOn txtOn isDir ok i s f (items.take k)).1
            ++ [Ev.log "Conversion stopped by user.", Ev.buttons],
           (procList pdfOn txtOn isDir ok i s f (items.take k)).2)
  | [], k, i, s, f, hk, _, _, _ => by simp at hk
  | src :: rest, 0, i, s, f, _, _, hset, _ => by
    simp only [Nat.add_zero] at hset
    simp [runFrom, procList, hset, tailEvents]
  | src :: rest, k + 1, i, s, f, hk, hpre, hset, hdir => by
    have h0 : stopAt i = false := by
      have := hpre 0 (Nat.succ_pos k)
      simpa using this
    have hd : isDir src = false := hdir src (by simp)
    have hrest : ∀ x ∈ rest, isDir x = false := fun x hx => hdir x (by simp [hx])
    have hpre' : ∀ j, j < k → stopAt (i + 1 + j) = false := by
      intro j hj
      have := hpre (j + 1) (by omega)
      have harith : i + (j + 1) = i + 1 + j := by omega
      rwa [harith] at this
    have hset' : stopAt (i + 1 + k) = true := by
      have harith : i + (k + 1) = i + 1 + k := by omega
      rwa [harith] at hset
    have hklt : k < rest.length := by simpa using hk
    have ih := runFrom_stop pdfOn txtOn isDir ok stopAt rest k (i + 1)
      (doFile pdfOn txtOn (ok i) src s f).2.1 (doFile pdfOn txtOn (ok i) src s f).2.2
      hklt hpre' hset' hrest
    simp [runFrom, procList, h0, hd, ih, List.take_succ_cons]

/-- The event list of a completed (never stopped) run, split into per-file
events and tail events. -/
theorem run_conversion_no_stop_events (pdfOn txtOn : Bool) (isDir : String → Bool)
    (ok : Nat → Fmt → Bool) (stopAt : Nat → Bool) (items : List String)
    (hstop : ∀ j, stopAt j = false) :
    (run_conversion pdfOn txtOn isDir ok stopAt false items).1
        = (procList pdfOn txtOn isDir ok 0 0 0 items).1 ++ tailEvents false ∧
    (run_conversion pdfOn txtOn isDir ok stopAt false items).2
        = (procList pdfOn txtOn isDir ok 0 0 0 items).2 := by
  have hrun := runFrom_no_stop pdfOn txtOn isDir ok stopAt false hstop items 0 0 0
  constructor
  · simp only [run_conversion, hrun]
  · simp only [run_conversion, hrun]

/-- The tail events of a completed run contain no progress event, no
success or fail event and no log event. -/
theorem tailEvents_counts (stopFinal : Bool) :
    (tailEvents stopFinal).countP isProgress = 0 ∧
    (tailEvents stopFinal).filterMap evKind = [] ∧
    (tailEvents stopFinal).countP isLogEv = 0 := by
  cases stopFinal <;> simp [tailEvents, isProgress, evKind, isLogEv]

/-- C2 (counterexample): the claim states one progress-increment event per
(file, format) pair, bounded by n times the number of formats.  On a run
over one file with both formats requested (two pairs), the worker emits a
single progress event, not two: progress is advanced once per file
(app.py line 497 sits outside the per-format blocks, and line 422 sets
the progress maximum to the file count, not the pair count). -/
theorem c2_progress_per_pair_counterexample :
    (run_conversion true true (fun _ => false) (fun _ _ => true) (fun _ => false) false
        ["a"]).1.countP isProgress = 1 ∧
    ["a"].length * (formatsOf true true).length = 2 := by
  exact ⟨by decide, by decide⟩

/-- C2 (amended): on a completed run over a directory-free snapshot the
worker emits exactly one success-or-failure event per (file, format) pair
in snapshot order, exactly one progress-increment event per file (not per
pair), every progress event advances by one, and the progress total, the
file count, is bounded by file count times number of formats. -/
theorem c2_events_per_pair_progress_per_file (pdfOn txtOn : Bool) (isDir : String → Bool)
    (ok : Nat → Fmt → Bool) (stopAt : Nat → Bool) (items : List String)
    (hstop : ∀ j, stopAt j = false) (hdir : ∀ x ∈ items, isDir x = false) :
    (run_conversion pdfOn txtOn isDir ok stopAt false items).1.filterMap evKind
        = expectedKinds pdfOn txtOn ok 0 items.length ∧
    (run_conversion pdfOn txtOn isDir ok stopAt false items).1.countP isProgress
        = items.length ∧
    (∀ e ∈ (run_conversion pdfOn txtOn isDir ok stopAt false items).1,
        isProgress e = true → e = Ev.progress 1) ∧
    items.length ≤ items.length * (formatsOf pdfOn txtOn).length := by
  obtain ⟨hev, _⟩ := run_conversion_no_stop_events pdfOn txtOn isDir ok stopAt items hstop
  obtain ⟨h1, h2, _, _, _⟩ := procList_spec pdfOn txtOn isDir ok items 0 0 0 hdir
  obtain ⟨t1, t2, _⟩ := tailEvents_counts false
  refine ⟨?_, ?_, ?_, ?_⟩
  · rw [hev, List.filterMap_append, h1, t2, List.append_nil]
  · rw [hev, List.countP_append, h2, t1]
    omega
  · intro e he hpe
    rw [hev] at he
    rcases List.mem_append.mp he with h | h
    · exact procList_progress_mem pdfOn txtOn isDir ok items 0 0 0 e h hpe
    · exfalso
      simp only [tailEvents, Bool.false_eq_true, if_false, List.mem_append,
        List.mem_singleton] at h
      rcases h with h | h <;> rw [h] at hpe <;> simp [isProgress] at hpe
  · have h4 := Nat.mul_le_mul_left items.length (formatsOf_length_pos pdfOn txtOn)
    simpa using h4

/-- Witness for c2_events_per_pair_progress_per_file on a two-file
snapshot with both formats requested and every task succeeding. -/
theorem c2_events_per_pair_progress_per_file_witness :
    (run_conversion true true (fun _ => false) (fun _ _ => true) (fun _ => false) false
        ["a", "b"]).1.filterMap evKind
        = expectedKinds true true (fun _ _ => true) 0 (["a", "b"].length) ∧
    (run_conversion true true (fun _ => false) (fun _ _ => true) (fun _ => false) false
        ["a", "b"]).1.countP isProgress = (["a", "b"].length) ∧
    (∀ e ∈ (run_conversion true true (fun _ => false) (fun _ _ => true) (fun _ => false) false
        ["a", "b"]).1, isProgress e = true → e = Ev.progress 1) ∧
    ["a", "b"].length ≤ ["a", "b"].length * (formatsOf true true).length :=
  c2_events_per_pair_progress_per_file true true (fun _ => false) (fun _ _ => true)
    (fun _ => false) ["a", "b"] (fun _ => rfl) (fun x _ => rfl)

/-- C3: the stop flag is read at the top of every file iteration; when it
first reads set at snapshot position k (with monotone cooperative
semantics, so the final read at line 500 is also set), the worker
processes exactly the first k snapshot entries, the success and fail
counters hold exactly the outcomes of those entries, and after the stop
notice only the terminal re-enable event is emitted. -/
theorem c3_stop_halts_before_next_file (pdfOn txtOn : Bool) (isDir : String → Bool)
    (ok : Nat → Fmt → Bool) (stopAt : Nat → Bool) (items : List String) (k : Nat)
    (hk : k < items.length) (hpre : ∀ j, j < k → stopAt j = false) (hset : stopAt k = true)
    (hdir : ∀ x ∈ items, isDir x = false) :
    run_conversion pdfOn txtOn isDir ok stopAt true items
      = ((procList pdfOn txtOn isDir ok 0 0 0 (items.take k)).1
          ++ [Ev.log "Conversion stopped by user.", Ev.buttons],
         (procList pdfOn txtOn isDir ok 0 0 0 (items.take k)).2) ∧
    (procList pdfOn txtOn isDir ok 0 0 0 (items.take k)).2.1
        = (expectedKinds pdfOn txtOn ok 0 k).count true ∧
    (procList pdfOn txtOn isDir ok 0 0 0 (items.take k)).2.2
        = (expectedKinds pdfOn txtOn ok 0 k).count false := by
  have hpre0 : ∀ j, j < k → stopAt (0 + j) = false := by simpa using hpre
  have hset0 : stopAt (0 + k) = true := by simpa using hset
  have h := runFrom_stop pdfOn txtOn isDir ok stopAt items k 0 0 0 hk hpre0 hset0 hdir
  have hdirtake : ∀ x ∈ items.take k, isDir x = false :=
    fun x hx => hdir x (List.take_subset k items hx)
  have hlen : (items.take k).length = k := by
    rw [List.length_take]
    omega
  obtain ⟨_, _, _, h4, h5⟩ := procList_spec pdfOn txtOn isDir ok (items.take k) 0 0 0 hdirtake
  rw [hlen] at h4 h5
  exact ⟨by simpa [run_conversion] using h, by simpa using h4, by simpa using h5⟩

/-- Witness for c3_stop_halts_before_next_file: three files, flag set from
position one on. -/
theorem c3_stop_halts_before_next_file_witness :
    run_conversion true false (fun _ => false) (fun _ _ => true) (fun j => decide (1 ≤ j))
        true ["a", "b", "c"]
      = ((procList true false (fun _ => false) (fun _ _ => true) 0 0 0
            (["a", "b", "c"].take 1)).1
          ++ [Ev.log "Conversion stopped by user.", Ev.buttons],
         (procList true false (fun _ => false) (fun _ _ => true) 0 0 0
            (["a", "b", "c"].take 1)).2) ∧
    (procList true false (fun _ => false) (fun _ _ => true) 0 0 0
        (["a", "b", "c"].take 1)).2.1
        = (expectedKinds true false (fun _ _ => true) 0 1).count true ∧
    (procList true false (fun _ => false) (fun _ _ => true) 0 0 0
        (["a", "b", "c"].take 1)).2.2
        = (expectedKinds true false (fun _ _ => true) 0 1).count false :=
  c3_stop_halts_before_next_file true false (fun _ => false) (fun _ _ => true)
    (fun j => decide (1 ≤ j)) ["a", "b", "c"] 1 (by decide)
    (fun j hj => by interval_cases j <;> decide) (by decide) (fun x _ => rfl)

/-- C7: an isolated task failure never aborts the run: whatever the
outcome oracle says, the completed run still emits exactly one success or
fail event for every (file, format) pair of the directory-free snapshot,
logs one event per pair (so every failure is logged), and the final
counters are exactly the number of successful and of failed pairs. -/
theorem c7_task_failure_isolated (pdfOn txtOn : Bool) (isDir : String → Bool)
    (ok : Nat → Fmt → Bool) (stopAt : Nat → Bool) (items : List String)
    (hstop : ∀ j, stopAt j = false) (hdir : ∀ x ∈ items, isDir x = false) :
    ((run_conversion pdfOn txtOn isDir ok stopAt false items).1.filterMap evKind).length
        = items.length * (formatsOf pdfOn txtOn).length ∧
    (run_conversion pdfOn txtOn isDir ok stopAt false items).2.1
        = (expectedKinds pdfOn txtOn ok 0 items.length).count true ∧
    (run_conversion pdfOn txtOn isDir ok stopAt false items).2.2
        = (expectedKinds pdfOn txtOn ok 0 items.length).count false ∧
    (run_conversion pdfOn txtOn isDir ok stopAt false items).1.countP isLogEv
        = items.length * (formatsOf pdfOn txtOn).length := by
  obtain ⟨hev, hct⟩ := run_conversion_no_stop_events pdfOn txtOn isDir ok stopAt items hstop
  obtain ⟨h1, _, h3, h4, h5⟩ := procList_spec pdfOn txtOn isDir ok items 0 0 0 hdir
  obtain ⟨_, t2, t3⟩ := tailEvents_counts false
  refine ⟨?_, ?_, ?_, ?_⟩
  · rw [hev, List.filterMap_append, h1, t2, List.append_nil, expectedKinds_length]
  · rw [hct]
    simpa using h4
  · rw [hct]
    simpa using h5
  · rw [hev, List.countP_append, h3, t3]
    omega

/-- Witness for c7_task_failure_isolated: two files with both formats, the
first file failing in both formats, the second succeeding. -/
theorem c7_task_failure_isolated_witness :
    ((run_conversion true true (fun _ => false) (fun i _ => decide (i = 1))
        (fun _ => false) false ["a", "b"]).1.filterMap evKind).length
        = ["a", "b"].length * (formatsOf true true).length ∧
    (run_conversion true true (fun _ => false) (fun i _ => decide (i = 1))
        (fun _ => false) false ["a", "b"]).2.1
        = (expectedKinds true true (fun i _ => decide (i = 1)) 0 ["a", "b"].length).count true ∧
    (run_conversion true true (fun _ => false) (fun i _ => decide (i = 1))
        (fun _ => false) false ["a", "b"]).2.2
        = (expectedKinds true true (fun i _ => decide (i = 1)) 0 ["a", "b"].length).count false ∧
    (run_conversion true true (fun _ => false) (fun i _ => decide (i = 1))
        (fun _ => false) false ["a", "b"]).1.countP isLogEv
        = ["a", "b"].length * (formatsOf true true).length :=
  c7_task_failure_isolated true true (fun _ => false) (fun i _ => decide (i = 1))
    (fun _ => false) ["a", "b"] (fun _ => rfl) (fun x _ => rfl)

/-- C4 (counterexample): the claim states the worker processes the
flattened checked list as it stood at lock time.  With the checked file
a.py present on disk at lock time but deleted before the start click, the
lock-time flatten is the one-element list a.py, while on_start_conversion
recomputes get_checked_items (app.py line 391) and hands the worker the
empty list: the run emits no success or fail event at all, so the worker
did not process the lock-time snapshot. -/
theorem c4_lock_time_snapshot_counterexample :
    get_checked_items fsLockC4 demoC4 = ["a.py"] ∧
    get_checked_items fsStartC4 demoC4 = [] ∧
    (run_conversion true false (fun _ => false) (fun _ _ => true) (fun _ => false) false
        (get_checked_items fsStartC4 demoC4)).1.countP isTaskEv = 0 := by
  exact ⟨by decide, by decide, by decide⟩

/-- C4 (amended): the snapshot the worker iterates is the flattened
checked list recomputed when conversion starts (on_start_conversion calls
get_checked_items again at line 391), not the list captured at lock time:
the completed run emits its success-or-failure events strictly in the
order of the start-time list, one per (entry, format) pair; the lock-time
list coincides with it whenever the tree and the filesystem are unchanged
between locking and starting. -/
theorem c4_snapshot_recomputed_at_start (treeL treeS : List TNode)
    (fsL fsS : String → FsKind) (pdfOn txtOn : Bool) (isDir : String → Bool)
    (ok : Nat → Fmt → Bool) (stopAt : Nat → Bool)
    (hstop : ∀ j, stopAt j = false)
    (hdir : ∀ x ∈ get_checked_items fsS treeS, isDir x = false) :
    (run_conversion pdfOn txtOn isDir ok stopAt false
        (get_checked_items fsS treeS)).1.filterMap evKind
        = expectedKinds pdfOn txtOn ok 0 (get_checked_items fsS treeS).length ∧
    (treeL = treeS → (∀ p, fsL p = fsS p) →
      get_checked_items fsL treeL = get_checked_items fsS treeS) := by
  constructor
  · obtain ⟨hev, _⟩ := run_conversion_no_stop_events pdfOn txtOn isDir ok stopAt
      (get_checked_items fsS treeS) hstop
    obtain ⟨h1, _, _, _, _⟩ := procList_spec pdfOn txtOn isDir ok
      (get_checked_items fsS treeS) 0 0 0 hdir
    obtain ⟨_, t2, _⟩ := tailEvents_counts false
    rw [hev, List.filterMap_append, h1, t2, List.append_nil]
  · intro ht hfs
    subst ht
    rw [funext hfs]

/-- Witness for c4_snapshot_recomputed_at_start with an unchanged tree and
filesystem between lock and start. -/
theorem c4_snapshot_recomputed_at_start_witness :
    (run_conversion true false (fun _ => false) (fun _ _ => true) (fun _ => false) false
        (get_checked_items fsLockC4 demoC4)).1.filterMap evKind
        = expectedKinds true false (fun _ _ => true) 0
            (get_checked_items fsLockC4 demoC4).length ∧
    (demoC4 = demoC4 → (∀ p, fsLockC4 p = fsLockC4 p) →
      get_checked_items fsLockC4 demoC4 = get_checked_items fsLockC4 demoC4) :=
  c4_snapshot_recomputed_at_start demoC4 demoC4 fsLockC4 fsLockC4 true false
    (fun _ => false) (fun _ _ => true) (fun _ => false) (fun _ => rfl) (fun x _ => rfl)

mutual
/-- The checked-item traversal is the preorder item enumeration filtered
by the per-item emission test. -/
theorem checkedItemsN_eq (fs : String → FsKind) :
    ∀ n : TNode, checkedItemsN fs n = (allNodesN n).filterMap (emitTest fs)
  | TNode.dummy => rfl
  | TNode.node p s kids => by
    by_cases hcond : (s = CheckState.checked ∧ fs p = FsKind.file
        ∧ endsWithStr p ".pdf" = false)
    · simp [checkedItemsN, allNodesN, List.filterMap_cons, emitTest, hcond,
        checkedItemsL_eq fs kids]
    · simp [checkedItemsN, allNodesN, List.filterMap_cons, emitTest, hcond,
        checkedItemsL_eq fs kids]
/-- List version of checkedItemsN_eq. -/
theorem checkedItemsL_eq (fs : String → FsKind) :
    ∀ l : List TNode, checkedItemsL fs l = (allNodesL l).filterMap (emitTest fs)
  | [] => rfl
  | c :: cs => by
    simp [checkedItemsL, allNodesL, List.filterMap_append, checkedItemsN_eq fs c,
      checkedItemsL_eq fs cs]
end

/-- C5 (counterexample): the claim states flatten never emits a path
already in the target output format.  With only the txt format requested
and a checked existing file a.txt, get_checked_items still emits a.txt
(the code only ever filters the hard-coded .pdf ending, app.py line 358),
and a.txt is already in the requested target format. -/
theorem c5_target_format_counterexample :
    get_checked_items fsC5 demoC5 = ["a.txt"] ∧
    inTargetFormat false true "a.txt" = true := by
  exact ⟨by decide, by decide⟩

/-- C5 (amended): get_checked_items never emits a directory or missing
path and never emits a path ending in .pdf (the hard-coded PDF extension,
regardless of which output formats are requested), and it equals the
depth-first preorder enumeration of all items filtered by the emission
test: exactly the checked items that are files on disk and do not end in
.pdf, in depth-first order, descending into children whatever the state
of the directory itself. -/
theorem c5_flatten_characterization (fs : String → FsKind) (roots : List TNode) :
    (get_checked_items fs roots).all
        (fun p => decide (fs p = FsKind.file) && !(endsWithStr p ".pdf")) = true ∧
    get_checked_items fs roots = (allNodesL roots).filterMap (emitTest fs) := by
  have h2 := checkedItemsL_eq fs roots
  constructor
  · rw [List.all_eq_true]
    intro p hp
    rw [get_checked_items, h2] at hp
    obtain ⟨n, _, he⟩ := List.mem_filterMap.mp hp
    cases n with
    | dummy => simp [emitTest] at he
    | node q t ks =>
      simp only [emitTest] at he
      split at he
      · rename_i hcond
        simp only [Option.some.injEq] at he
        subst he
        simp [hcond.2.1, hcond.2.2]
      · simp at he
  · exact h2

/-- C6 (counterexample): the claim states that a permission or input
failure for the directory itself emits exactly one diagnostic event.  The
code logs the error and then, because its enqueued flag is still False,
also logs the no-eligible-entries diagnostic (app.py lines 602-611): two
gui_queue events, with zero tree insertions. -/
theorem c6_single_diagnostic_counterexample :
    (scan_and_enqueue_children (Except.error "Permission denied") (fun _ => false) "d").1
        = [] ∧
    ((scan_and_enqueue_children (Except.error "Permission denied")
        (fun _ => false) "d").2).length = 2 := by
  exact ⟨by decide, by decide⟩

/-- C6 (amended): on a permission or input failure for the directory
itself the scan is abandoned with zero tree insertions and exactly two
diagnostic events, the error log followed by the no-eligible-entries log
(nothing was enqueued, so the empty-scan diagnostic also fires); a scan of
an empty accessible directory yields zero tree insertions and exactly one
no-eligible-entries diagnostic event. -/
theorem c6_scan_failure_and_empty_scan (stopAt : Nat → Bool) (d msg : String) :
    scan_and_enqueue_children (Except.error msg) stopAt d
        = ([], [Ev.log ("Error scanning " ++ d ++ ": " ++ msg),
                Ev.log ("No eligible files or directories found in: " ++ d)]) ∧
    scan_and_enqueue_children (Except.ok []) stopAt d
        = ([], [Ev.log ("No eligible files or directories found in: " ++ d)]) := by
  exact ⟨rfl, rfl⟩
